import Mathlib

/-!
Verification of the p2v-mem-basic memory-subsystem generator.

The definitions below are a shallow embedding of the Python sources under
`src/src/`: `g_mem.py` (tiling plan, row decode, strobe expansion, runtime
assertions, simulation tasks), `g_mem_row.py` (bank composition),
`g_ff_array.py` (flip-flop fallback storage) and `g_sram.py` (vendor macro
port binding).  Machine integers are modelled as `Nat`; Verilog bit-vector
slices `x[s +: w]` become `(x / 2 ^ s) % 2 ^ w`.
-/

namespace P2VMem

/-- Models the p2v helper `misc.roundup(a, b)`: round `a` up to the next
multiple of `b` (the spec writes `roundup(bits, macro.width)`). -/
def roundup (a b : Nat) : Nat := ((a + b - 1) / b) * b

/-- Fuel-based ceiling log2, structurally recursive so the kernel can
evaluate it. -/
def clog2Aux : Nat → Nat → Nat
  | 0, _ => 0
  | fuel + 1, n => if n ≤ 1 then 0 else clog2Aux fuel ((n + 1) / 2) + 1

/-- Models the p2v helper `misc.log2(n)`: the number of address bits needed
for `n` lines, i.e. the ceiling of log2 (the spec scenario fixes
`log2(4096) = 12`, `log2(8) = 3`). -/
def log2 (n : Nat) : Nat := clog2Aux n n

/-- Models the p2v helper `misc.is_pow2`. -/
def is_pow2 (n : Nat) : Bool := 2 ^ log2 n == n

/-- Verilog part-select `x[start +: width]` as used by `misc.bits` and
`misc._declare` in the sources. -/
def bitsField (x start width : Nat) : Nat := (x / 2 ^ start) % 2 ^ width

theorem clog2Aux_eq_clog (fuel n : Nat) (h : n ≤ fuel) :
    clog2Aux fuel n = Nat.clog 2 n := by
  induction fuel generalizing n with
  | zero =>
    interval_cases n
    simp [clog2Aux]
  | succ f ih =>
    by_cases h1 : n ≤ 1
    · rw [clog2Aux, if_pos h1, Nat.clog_of_right_le_one h1]
    · push_neg at h1
      rw [clog2Aux, if_neg (by omega)]
      rw [Nat.clog_of_two_le (by omega) (by omega)]
      have hrec : (n + 2 - 1) / 2 = (n + 1) / 2 := by omega
      rw [← hrec]
      congr 1
      exact ih _ (by omega)

theorem log2_eq_clog (n : Nat) : log2 n = Nat.clog 2 n :=
  clog2Aux_eq_clog n n le_rfl

theorem le_two_pow_log2 (n : Nat) : n ≤ 2 ^ log2 n := by
  rw [log2_eq_clog]
  exact Nat.le_pow_clog (by omega) n

theorem log2_two_pow (k : Nat) : log2 (2 ^ k) = k := by
  rw [log2_eq_clog]
  exact Nat.clog_pow 2 k (by omega)

theorem log2_two_pow_mul {r : Nat} (k : Nat) (hr : 0 < r) :
    log2 (2 ^ k * r) = k + log2 r := by
  rw [log2_eq_clog, log2_eq_clog]
  refine eq_of_forall_ge_iff fun m => ?_
  rw [← Nat.le_pow_iff_clog_le (by omega)]
  constructor
  · intro h
    have hk : k ≤ m := by
      by_contra hkm
      push_neg at hkm
      have h2 : 2 ^ k * r ≥ 2 ^ k * 1 := Nat.mul_le_mul_left _ hr
      have h3 : 2 ^ m < 2 ^ k := Nat.pow_lt_pow_right (by omega) hkm
      omega
    have hsplit : 2 ^ m = 2 ^ k * 2 ^ (m - k) := by
      rw [← pow_add]
      congr 1
      omega
    rw [hsplit] at h
    have hr2 : r ≤ 2 ^ (m - k) := Nat.le_of_mul_le_mul_left h (by positivity)
    have : Nat.clog 2 r ≤ m - k := (Nat.le_pow_iff_clog_le (by omega)).mp hr2
    omega
  · intro h
    have hk : k ≤ m := by omega
    have hc : Nat.clog 2 r ≤ m - k := by omega
    have hr2 : r ≤ 2 ^ (m - k) := (Nat.le_pow_iff_clog_le (by omega)).mpr hc
    calc 2 ^ k * r ≤ 2 ^ k * 2 ^ (m - k) := Nat.mul_le_mul_left _ hr2
    _ = 2 ^ m := by rw [← pow_add]; congr 1; omega

/-- Geometry of a physical SRAM macro as extracted by `g_sram.get_params`:
`bits` is the data width, `line_num` the depth (`1 << addr_bits`). -/
structure SramGeom where
  bits : Nat
  line_num : Nat
deriving DecidableEq, Repr

/-- The tiling plan computed by `g_mem.module` (lines 95-141 of
`g_mem.py`). -/
structure Plan where
  bank_num : Nat
  row_num : Nat
  bits_roundup : Nat
  line_num_roundup : Nat
  lines_per_row : Nat
  bits_per_bank : Nat
  addr_bits : Nat
  row_addr_bits : Nat
  row_sel_bits : Nat
  sram_addr_bits : Nat
deriving DecidableEq, Repr

/-- `g_mem.module` tiling computation: with a macro,
`bits_roundup = misc.roundup(bits, ram_bits)`, `bank_num = bits_roundup //
ram_bits`, `line_num_roundup = misc.roundup(line_num, ram_line_num)`,
`row_num = line_num_roundup // ram_line_num`; without a macro all counts
are 1.  The derived fields follow lines 129-141 of `g_mem.py`. -/
def mkPlan (bits line_num : Nat) (sram : Option SramGeom) : Plan :=
  let bank_num := match sram with
    | some s => roundup bits s.bits / s.bits
    | none => 1
  let row_num := match sram with
    | some s => roundup line_num s.line_num / s.line_num
    | none => 1
  let bits_roundup := match sram with
    | some s => roundup bits s.bits
    | none => bits
  let line_num_roundup := match sram with
    | some s => roundup line_num s.line_num
    | none => line_num
  let row_sel_bits := log2 row_num
  { bank_num := bank_num
    row_num := row_num
    bits_roundup := bits_roundup
    line_num_roundup := line_num_roundup
    lines_per_row := line_num_roundup / row_num
    bits_per_bank := bits_roundup / bank_num
    addr_bits := log2 line_num
    row_addr_bits := log2 (line_num_roundup / row_num)
    row_sel_bits := row_sel_bits
    sram_addr_bits := log2 line_num_roundup - row_sel_bits }

/-- Per-row select decode of `g_mem.module` (lines 242-250): when
`row_num == 1` the single row select bit is tied to 1, otherwise row `y`
is selected when `addr[sram_addr_bits +: row_sel_bits] == y`.  The same
expression drives both the write and the read row-select vectors. -/
def rowSel (p : Plan) (addr y : Nat) : Bool :=
  if p.row_num = 1 then true
  else bitsField addr p.sram_addr_bits p.row_sel_bits == y

/-- Write-select expansion of `g_mem.module` (lines 187-201), one bit of
the full-width mask: `bit_sel == 0` ties the mask to all-ones,
`bit_sel == 1` passes the strobe vector through, `bit_sel > 1` replicates
each strobe bit over its `bit_sel`-wide slice and drives the `bits %
bit_sel` leftover top bits from the last strobe bit. -/
def wr_sel_bit (bit_sel bits strb j : Nat) : Bool :=
  if bit_sel = 0 then true
  else if bit_sel = 1 then Nat.testBit strb j
  else if j < bits / bit_sel * bit_sel then Nat.testBit strb (j / bit_sel)
  else Nat.testBit strb (bits / bit_sel - 1)

/-- Pack the low `w` bits given by `f` into a `Nat` (LSB = `f 0`). -/
def packBits : Nat → (Nat → Bool) → Nat
  | 0, _ => 0
  | w + 1, f => packBits w f + (if f w then 2 ^ w else 0)

/-- The full expanded write-select mask as a value. -/
def wr_sel_val (bit_sel bits strb : Nat) : Nat :=
  packBits bits (fun j => wr_sel_bit bit_sel bits strb j)

theorem packBits_eq_zero_iff (w : Nat) (f : Nat → Bool) :
    packBits w f = 0 ↔ ∀ i < w, f i = false := by
  induction w with
  | zero => simp [packBits]
  | succ v ih =>
    rw [packBits]
    constructor
    · intro h
      have hpos : (0:Nat) < 2 ^ v := Nat.pos_pow_of_pos v (by omega)
      have h2 : f v = false := by
        by_cases hf : f v
        · rw [if_pos hf] at h; omega
        · simpa using hf
      have h1 : packBits v f = 0 := by
        rw [h2] at h; simpa using h
      intro i hi
      rcases Nat.lt_succ_iff_lt_or_eq.mp hi with h3 | h3
      · exact (ih.mp h1) i h3
      · rw [h3]; exact h2
    · intro h
      have h1 : packBits v f = 0 := ih.mpr fun i hi => h i (Nat.lt_succ_of_lt hi)
      have h2 : f v = false := h v (Nat.lt_succ_self v)
      simp [h1, h2]

/-- Flip-flop fallback write (`g_ff_array.py` line 84): on an active write
the addressed word becomes `(wr_sel & wr_data) | (~wr_sel & old)`, with
the bitwise complement taken at width `bits`; every other word is kept. -/
def ff_write (bits : Nat) (mem : Nat → Nat) (wr : Bool)
    (addr data sel : Nat) : Nat → Nat :=
  fun a =>
    if wr && (a == addr) then
      (sel &&& data) ||| (((2 ^ bits - 1) ^^^ sel) &&& mem a)
    else mem a

/-- Flip-flop fallback read (`g_ff_array.py` lines 87-89): the read data is
the addressed word. -/
def ff_read (mem : Nat → Nat) (addr : Nat) : Nat := mem addr

/-- Bank write-select slice of `g_mem_row.module` (line 123): bank `x`
sees `wr_sel[bits_per_bank*x +: bits_per_bank]`. -/
def wr_bank_sel (wr_sel_v bits_per_bank x : Nat) : Nat :=
  bitsField wr_sel_v (bits_per_bank * x) bits_per_bank

/-- Bank write-select bit of `g_mem_row.module` (line 125): bit `x` of the
bank write-select vector is `wr_sel slice > 0`. -/
def bank_wr_sel_bit (wr_sel_v bits_per_bank x : Nat) : Bool :=
  wr_bank_sel wr_sel_v bits_per_bank x > 0

/-- Bank read-select bit of `g_mem_row.module` (lines 103-106, 126): with
`rd_en` the input vector is used, otherwise the vector is tied to all
ones (`assign=-1`). -/
def bank_rd_sel_bit (rd_en : Bool) (rd_sel_v : Nat) (x : Nat) : Bool :=
  if rd_en then Nat.testBit rd_sel_v x else true

/-- Write issued to bank `x` (`g_mem_row.module` line 122):
`wr & bank_wr_sel[x]`. -/
def wr_bank (wr : Bool) (wr_sel_v bits_per_bank x : Nat) : Bool :=
  wr && bank_wr_sel_bit wr_sel_v bits_per_bank x

/-- Read issued to bank `x` (`g_mem_row.module` line 144):
`rd & bank_rd_sel[x]`. -/
def rd_bank (rd : Bool) (rd_en : Bool) (rd_sel_v : Nat) (x : Nat) : Bool :=
  rd && bank_rd_sel_bit rd_en rd_sel_v x

/-- Write issued to row `y` (`g_mem.module` line 243):
`wr & wr_row_sel[y]`. -/
def wr_row (p : Plan) (wr : Bool) (addr y : Nat) : Bool :=
  wr && rowSel p addr y

/-- Read issued to row `y` (`g_mem.module` line 296):
`rd & rd_row_sel[y]`. -/
def rd_row (p : Plan) (rd : Bool) (addr y : Nat) : Bool :=
  rd && rowSel p addr y

/-- The packed row-select vector of `g_mem.module` (lines 238-250), used by
the `assert_never` checks. -/
def row_sel_vec (p : Plan) (addr : Nat) : Nat :=
  packBits p.row_num (fun y => rowSel p addr y)

/-- Top-level `assert_never` condition of `g_mem.module` (lines 307-311):
the fatal check fires when an active access sees an all-zero row-select
vector (`wr & (wr_row_sel == 0)`, same for read). -/
def no_row_sel_assert (p : Plan) (active : Bool) (addr : Nat) : Bool :=
  active && (row_sel_vec p addr == 0)

/-- The packed bank write-select vector of `g_mem_row.module`. -/
def bank_wr_sel_vec (wr_sel_v bits_per_bank bank_num : Nat) : Nat :=
  packBits bank_num (fun x => bank_wr_sel_bit wr_sel_v bits_per_bank x)

/-- The packed bank read-select vector of `g_mem_row.module`. -/
def bank_rd_sel_vec (rd_en : Bool) (rd_sel_v bank_num : Nat) : Nat :=
  packBits bank_num (fun x => bank_rd_sel_bit rd_en rd_sel_v x)

/-- Row-level `assert_never` condition of `g_mem_row.module` (lines
155-158): fires when an active write sees an all-zero bank write-select
vector. -/
def no_bank_wr_sel_assert (wr : Bool) (wr_sel_v bits_per_bank bank_num : Nat) :
    Bool :=
  wr && (bank_wr_sel_vec wr_sel_v bits_per_bank bank_num == 0)

/-- Row-level `assert_never` condition for reads (`g_mem_row.module` lines
157-158). -/
def no_bank_rd_sel_assert (rd : Bool) (rd_en : Bool) (rd_sel_v bank_num : Nat) :
    Bool :=
  rd && (bank_rd_sel_vec rd_en rd_sel_v bank_num == 0)

/-- The generated simulation `write`/`read` task of `g_mem._tasks` (lines
321-344), called with `line_num = line_num_roundup` (line 314): `none` is
the fatal out-of-range halt (`check_never(addr >= line_num, ..., fatal)`);
otherwise the task dispatches to each row `y` whose guard
`addr[row_addr_bits +: row_sel_bits] == y` holds, the guard being omitted
when `row_num == 1`. -/
def sim_task (p : Plan) (addr : Nat) : Option (List Nat) :=
  if p.line_num_roundup ≤ addr then none
  else some ((List.range p.row_num).filter fun y =>
    if p.row_num = 1 then true
    else bitsField addr p.row_addr_bits p.row_sel_bits == y)

/-- The physical pin names that `g_sram._get_lib_names` recognises, one
constructor per distinct Verilog port name string appearing in the
tables. -/
inductive PinName where
  | clk0 | csb0 | web0 | din0 | addr0 | wmask0 | dout0
  | clk1 | csb1 | web1 | din1 | addr1 | wmask1 | dout1
  | CLKW | WEB | AA | D | BWEB
  | CLKR | REB | AB | Q
  | CLK | CEB | A
deriving DecidableEq, Repr

/-- A declared port of a vendor macro: its name and bit width (direction is
irrelevant to the bound claims). -/
structure Pin where
  name : PinName
  bits : Nat
deriving DecidableEq, Repr

/-- The macro's declared port list, as consumed by
`g_sram._get_verilog_ports`. -/
def Signals := List Pin

/-- `name in signals` membership test. -/
def hasPin (s : Signals) (n : PinName) : Bool :=
  s.any fun p => p.name = n

/-- Width lookup (`signals[name]._bits`); 0 if absent. -/
def pinBits (s : Signals) (n : PinName) : Nat :=
  match s.find? fun p => p.name = n with
  | some p => p.bits
  | none => 0

/-- The canonical port roles of the binder. -/
inductive Role where
  | clk | csb | web | din | addr | wsel | dout
deriving DecidableEq, Repr

/-- The recognised vendor pinout conventions of `g_sram._get_lib_names`:
`openram` (multi-port style), `tsmcSplit` (split write/read-port macro),
`tsmcCombined` (one combined read/write port). -/
inductive Conv where
  | openram | tsmcSplit | tsmcCombined
deriving DecidableEq, Repr

/-- Convention detection (`g_sram._get_lib_names` lines 215, 227, 230):
`din0` and `addr0` present selects openram; else `D` and `Q` present
selects tsmc, split if `AA` and `CLKW` present; else the pinout is
unrecognised (fatal). -/
def detect (s : Signals) : Option Conv :=
  if hasPin s PinName.din0 && hasPin s PinName.addr0 then some Conv.openram
  else if hasPin s PinName.D && hasPin s PinName.Q then
    if hasPin s PinName.AA && hasPin s PinName.CLKW then some Conv.tsmcSplit
    else some Conv.tsmcCombined
  else none

/-- The role-to-pin-name tables of `g_sram._get_lib_names` (lines
217-260). -/
def libName (c : Conv) (r : Role) (n : Nat) : Option PinName :=
  match c, r, n with
  | Conv.openram, Role.clk, 0 => some PinName.clk0
  | Conv.openram, Role.csb, 0 => some PinName.csb0
  | Conv.openram, Role.web, 0 => some PinName.web0
  | Conv.openram, Role.din, 0 => some PinName.din0
  | Conv.openram, Role.addr, 0 => some PinName.addr0
  | Conv.openram, Role.wsel, 0 => some PinName.wmask0
  | Conv.openram, Role.dout, 0 => some PinName.dout0
  | Conv.openram, Role.clk, 1 => some PinName.clk1
  | Conv.openram, Role.csb, 1 => some PinName.csb1
  | Conv.openram, Role.web, 1 => some PinName.web1
  | Conv.openram, Role.din, 1 => some PinName.din1
  | Conv.openram, Role.addr, 1 => some PinName.addr1
  | Conv.openram, Role.wsel, 1 => some PinName.wmask1
  | Conv.openram, Role.dout, 1 => some PinName.dout1
  | Conv.tsmcSplit, Role.clk, 0 => some PinName.CLKW
  | Conv.tsmcSplit, Role.csb, 0 => none
  | Conv.tsmcSplit, Role.web, 0 => some PinName.WEB
  | Conv.tsmcSplit, Role.addr, 0 => some PinName.AA
  | Conv.tsmcSplit, Role.din, 0 => some PinName.D
  | Conv.tsmcSplit, Role.wsel, 0 => some PinName.BWEB
  | Conv.tsmcSplit, Role.dout, 0 => none
  | Conv.tsmcSplit, Role.clk, 1 => some PinName.CLKR
  | Conv.tsmcSplit, Role.csb, 1 => none
  | Conv.tsmcSplit, Role.web, 1 => some PinName.REB
  | Conv.tsmcSplit, Role.addr, 1 => some PinName.AB
  | Conv.tsmcSplit, Role.din, 1 => none
  | Conv.tsmcSplit, Role.wsel, 1 => none
  | Conv.tsmcSplit, Role.dout, 1 => some PinName.Q
  | Conv.tsmcCombined, Role.clk, 0 => some PinName.CLK
  | Conv.tsmcCombined, Role.csb, 0 => some PinName.CEB
  | Conv.tsmcCombined, Role.web, 0 => some PinName.WEB
  | Conv.tsmcCombined, Role.addr, 0 => some PinName.A
  | Conv.tsmcCombined, Role.din, 0 => some PinName.D
  | Conv.tsmcCombined, Role.wsel, 0 => some PinName.BWEB
  | Conv.tsmcCombined, Role.dout, 0 => some PinName.Q
  | Conv.tsmcCombined, _, 1 => none
  | _, _, _ => none

/-- `g_sram._check_port`: the role maps to a pin name that is actually
among the macro's declared ports. -/
def checkPort (c : Conv) (s : Signals) (r : Role) (n : Nat) : Bool :=
  match libName c r n with
  | some p => hasPin s p
  | none => false

/-- Port capability, mirroring the strings of `g_sram.get_port_type`:
`rw` is "w/r", `w` is "w", `r` is "r", `absent` is "". -/
inductive PortCap where
  | rw | w | r | absent
deriving DecidableEq, Repr

/-- `g_sram.get_port_type` (lines 380-390): "w/r" when both `csb{n}` and
`web{n}` check out; else, when one of them does, "w" if `din{n}` is
present and "r" otherwise; else "". -/
def get_port_type (c : Conv) (s : Signals) (n : Nat) : PortCap :=
  if checkPort c s Role.csb n && checkPort c s Role.web n then PortCap.rw
  else if checkPort c s Role.csb n || checkPort c s Role.web n then
    if checkPort c s Role.din n then PortCap.w else PortCap.r
  else PortCap.absent

/-- Port capability as the claim literally words it: "w/r" when both
chip-select and write-enable map to real pins, else "w" when a data-in
pin is present, "r" when only a data-out pin is present, and "" (absent)
otherwise. -/
def get_port_type_claim (c : Conv) (s : Signals) (n : Nat) : PortCap :=
  if checkPort c s Role.csb n && checkPort c s Role.web n then PortCap.rw
  else if checkPort c s Role.din n then PortCap.w
  else if checkPort c s Role.dout n && !checkPort c s Role.din n then PortCap.r
  else PortCap.absent

/-- The macro parameters derived by `g_sram.get_params` (lines 346-363)
for a recognised pinout. -/
structure SramParams where
  bits : Nat
  addr_bits : Nat
  line_num : Nat
  dual_clk : Bool
  bit_sel : Nat
  port0 : PortCap
  port1 : PortCap
deriving DecidableEq, Repr

/-- Helper for `get_params`: the pin name mapped by a role at port `n`, or
an arbitrary name when unmapped (matching a Python `KeyError`-free lookup
of a role every recognised convention maps at port 0). -/
def roleBits (c : Conv) (s : Signals) (r : Role) (n : Nat) : Nat :=
  match libName c r n with
  | some p => pinBits s p
  | none => 0

/-- `g_sram.get_params` (lines 346-363): width is the `din0`-role pin
width, `addr_bits` the `addr0`-role pin width, depth `1 << addr_bits`,
`dual_clk` whether the port-1 clock role maps to a declared pin,
`bit_sel` the ratio of width to the `wsel0`-role pin width (0 when the
write-mask role does not map to a declared pin). -/
def get_params (c : Conv) (s : Signals) : SramParams :=
  let bits := roleBits c s Role.din 0
  { bits := bits
    addr_bits := roleBits c s Role.addr 0
    line_num := 2 ^ roleBits c s Role.addr 0
    dual_clk := checkPort c s Role.clk 1
    bit_sel := if checkPort c s Role.wsel 0 then bits / roleBits c s Role.wsel 0
               else 0
    port0 := get_port_type c s 0
    port1 := get_port_type c s 1 }

/-- Value driven on the write-enable-role pin by `g_sram._get_lib_conn`
(lines 267-318) as a function of the port's `wr`/`rd` requests: openram
drives `web{n} = rd[n]`, the split tsmc macro drives `WEB = wr[0]` and
`REB = rd[1]`, the combined tsmc macro drives `WEB = rd[0]`; `none` when
the convention has no such pin at `n`. -/
def web_conn (c : Conv) (n : Nat) (wr rd : Bool) : Option Bool :=
  match c, n with
  | Conv.openram, 0 => some rd
  | Conv.openram, 1 => some rd
  | Conv.tsmcSplit, 0 => some wr
  | Conv.tsmcSplit, 1 => some rd
  | Conv.tsmcCombined, 0 => some rd
  | _, _ => none

/-- Value driven on the chip-select-role pin by `g_sram._get_lib_conn`:
`csb{n} = ~(wr[n] | rd[n])` for openram and the combined tsmc macro;
the split macro has none. -/
def csb_conn (c : Conv) (n : Nat) (wr rd : Bool) : Option Bool :=
  match c, n with
  | Conv.openram, 0 => some (!(wr || rd))
  | Conv.openram, 1 => some (!(wr || rd))
  | Conv.tsmcCombined, 0 => some (!(wr || rd))
  | _, _ => none

/-- Value driven on the write-mask-role pin by `g_sram._get_lib_conn`,
given the per-granule select vector `wsel` of width `wsel_bits` computed
at lines 122-131: openram drives `wmask{n} = wsel{n}` and the split tsmc
macro drives `BWEB = wsel0` directly, while the combined tsmc macro
drives `BWEB = ~wsel0` (bitwise complement at the pin width). -/
def wsel_conn (c : Conv) (n : Nat) (wsel_bits wsel : Nat) : Option Nat :=
  match c, n with
  | Conv.openram, 0 => some wsel
  | Conv.openram, 1 => some wsel
  | Conv.tsmcSplit, 0 => some wsel
  | Conv.tsmcCombined, 0 => some ((2 ^ wsel_bits - 1) ^^^ wsel)
  | _, _ => none

theorem mkPlan_some_eq (bits line_num : Nat) (s : SramGeom) :
    mkPlan bits line_num (some s) =
    { bank_num := roundup bits s.bits / s.bits
      row_num := roundup line_num s.line_num / s.line_num
      bits_roundup := roundup bits s.bits
      line_num_roundup := roundup line_num s.line_num
      lines_per_row := roundup line_num s.line_num /
        (roundup line_num s.line_num / s.line_num)
      bits_per_bank := roundup bits s.bits / (roundup bits s.bits / s.bits)
      addr_bits := log2 line_num
      row_addr_bits := log2 (roundup line_num s.line_num /
        (roundup line_num s.line_num / s.line_num))
      row_sel_bits := log2 (roundup line_num s.line_num / s.line_num)
      sram_addr_bits := log2 (roundup line_num s.line_num) -
        log2 (roundup line_num s.line_num / s.line_num) } := rfl

theorem mkPlan_none_eq (bits line_num : Nat) :
    mkPlan bits line_num none =
    { bank_num := 1
      row_num := 1
      bits_roundup := bits
      line_num_roundup := line_num
      lines_per_row := line_num
      bits_per_bank := bits
      addr_bits := log2 line_num
      row_addr_bits := log2 line_num
      row_sel_bits := log2 1
      sram_addr_bits := log2 line_num - log2 1 } := by
  rw [mkPlan]
  simp [Nat.div_one]

theorem roundup_decomp (a b : Nat) (ha : 0 < a) (hb : 0 < b) :
    roundup a b / b * b = roundup a b ∧ 0 < roundup a b / b ∧
      roundup a b / (roundup a b / b) = b := by
  have h1 : roundup a b = ((a + b - 1) / b) * b := rfl
  have hqpos : 0 < (a + b - 1) / b := Nat.div_pos (by omega) hb
  have h2 : roundup a b / b = (a + b - 1) / b := by
    rw [h1, Nat.mul_div_cancel _ hb]
  refine ⟨?_, ?_, ?_⟩
  · rw [h2, ← h1]
  · rw [h2]; exact hqpos
  · rw [h2, h1, Nat.mul_div_cancel_left _ hqpos]

theorem le_roundup (a b : Nat) (hb : 0 < b) : a ≤ roundup a b := by
  rcases Nat.eq_zero_or_pos a with ha | ha
  · simp [ha]
  · have hq : (a + b - 1) / b = (a - 1) / b + 1 := by
      have he : a + b - 1 = (a - 1) + b := by omega
      rw [he, Nat.add_div_right _ hb]
    have h2 : a - 1 < ((a - 1) / b + 1) * b :=
      (Nat.div_lt_iff_lt_mul hb).mp (Nat.lt_succ_self _)
    rw [roundup, hq]
    omega

theorem field_eq_div (addr k q : Nat) (h : addr < q * 2 ^ k) :
    (addr / 2 ^ k) % 2 ^ log2 q = addr / 2 ^ k ∧ addr / 2 ^ k < q := by
  have hp : (0:Nat) < 2 ^ k := Nat.pos_pow_of_pos k (by omega)
  have h2 : addr / 2 ^ k < q := (Nat.div_lt_iff_lt_mul hp).mpr h
  have h3 : addr / 2 ^ k < 2 ^ log2 q := lt_of_lt_of_le h2 (le_two_pow_log2 q)
  exact ⟨Nat.mod_eq_of_lt h3, h2⟩

theorem mkPlan_pow2_bits (line_num k : Nat) (bits : Nat) (s : SramGeom)
    (hl : 0 < line_num) (hs : s.line_num = 2 ^ k) :
    (mkPlan bits line_num (some s)).lines_per_row = 2 ^ k ∧
    (mkPlan bits line_num (some s)).row_addr_bits = k ∧
    (mkPlan bits line_num (some s)).sram_addr_bits = k ∧
    (mkPlan bits line_num (some s)).line_num_roundup =
      (mkPlan bits line_num (some s)).row_num * 2 ^ k ∧
    0 < (mkPlan bits line_num (some s)).row_num := by
  have hsl : 0 < s.line_num := by rw [hs]; exact Nat.pos_pow_of_pos k (by omega)
  obtain ⟨hd1, hd2, hd3⟩ := roundup_decomp line_num s.line_num hl hsl
  simp only [mkPlan_some_eq]
  set q := roundup line_num s.line_num / s.line_num with hqdef
  have hLk : roundup line_num s.line_num = 2 ^ k * q := by
    rw [← hd1, hs, Nat.mul_comm]
  refine ⟨?_, ?_, ?_, ?_, ?_⟩
  · rw [hd3, hs]
  · rw [hd3, hs, log2_two_pow]
  · rw [hLk, log2_two_pow_mul k hd2]
    omega
  · rw [hLk, Nat.mul_comm]
  · exact hd2

/-- C1: the tiling plan with a macro satisfies `bits_roundup =
roundup(bits, macro width)`, `bank_num = bits_roundup / macro width`,
`lines_roundup = roundup(line_num, macro depth)`, `row_num =
lines_roundup / macro depth`, hence `bank_num * bits_per_bank =
bits_roundup` and `row_num * lines_per_row = lines_roundup`; with no
macro, `bank_num = row_num = 1`, `bits_roundup = bits` and `lines_roundup
= line_num`. -/
theorem c1_tiling_plan (bits line_num : Nat) (s : SramGeom)
    (hb : 0 < bits) (hl : 1 < line_num) (hw : 0 < s.bits) (hd : 0 < s.line_num) :
    (mkPlan bits line_num (some s)).bits_roundup = roundup bits s.bits ∧
    (mkPlan bits line_num (some s)).bank_num = roundup bits s.bits / s.bits ∧
    (mkPlan bits line_num (some s)).line_num_roundup =
      roundup line_num s.line_num ∧
    (mkPlan bits line_num (some s)).row_num =
      roundup line_num s.line_num / s.line_num ∧
    (mkPlan bits line_num (some s)).bank_num *
      (mkPlan bits line_num (some s)).bits_per_bank =
      (mkPlan bits line_num (some s)).bits_roundup ∧
    (mkPlan bits line_num (some s)).row_num *
      (mkPlan bits line_num (some s)).lines_per_row =
      (mkPlan bits line_num (some s)).line_num_roundup ∧
    (mkPlan bits line_num none).bank_num = 1 ∧
    (mkPlan bits line_num none).row_num = 1 ∧
    (mkPlan bits line_num none).bits_roundup = bits ∧
    (mkPlan bits line_num none).line_num_roundup = line_num := by
  obtain ⟨hb1, hb2, hb3⟩ := roundup_decomp bits s.bits hb hw
  obtain ⟨hl1, hl2, hl3⟩ := roundup_decomp line_num s.line_num (by omega) hd
  rw [mkPlan_some_eq, mkPlan_none_eq]
  refine ⟨rfl, rfl, rfl, rfl, ?_, ?_, rfl, rfl, rfl, rfl⟩
  · simp only
    rw [hb3]
    exact hb1
  · simp only
    rw [hl3]
    exact hl1

/-- Witness for C1 at the testbench configuration (bits=64, line_num=4096,
macro 32 wide and 512 deep). -/
theorem c1_tiling_plan_witness :
    (mkPlan 64 4096 (some ⟨32, 512⟩)).bits_roundup = roundup 64 32 ∧
    (mkPlan 64 4096 (some ⟨32, 512⟩)).bank_num = roundup 64 32 / 32 ∧
    (mkPlan 64 4096 (some ⟨32, 512⟩)).line_num_roundup = roundup 4096 512 ∧
    (mkPlan 64 4096 (some ⟨32, 512⟩)).row_num = roundup 4096 512 / 512 ∧
    (mkPlan 64 4096 (some ⟨32, 512⟩)).bank_num *
      (mkPlan 64 4096 (some ⟨32, 512⟩)).bits_per_bank =
      (mkPlan 64 4096 (some ⟨32, 512⟩)).bits_roundup ∧
    (mkPlan 64 4096 (some ⟨32, 512⟩)).row_num *
      (mkPlan 64 4096 (some ⟨32, 512⟩)).lines_per_row =
      (mkPlan 64 4096 (some ⟨32, 512⟩)).line_num_roundup ∧
    (mkPlan 64 4096 none).bank_num = 1 ∧
    (mkPlan 64 4096 none).row_num = 1 ∧
    (mkPlan 64 4096 none).bits_roundup = 64 ∧
    (mkPlan 64 4096 none).line_num_roundup = 4096 :=
  c1_tiling_plan 64 4096 ⟨32, 512⟩ (by decide) (by decide) (by decide) (by decide)

/-- C2: the per-row select decode: when `row_num == 1` the single row is
always selected; otherwise row `y` is selected exactly when bits
`[sram_addr_bits, sram_addr_bits + row_sel_bits)` of the external address
equal `y`; and in the testbench scenario (bits=64, line_num=4096, macro
32x512) the plan has `bank_num = 2`, `row_num = 8`, `lines_per_row =
512`, `sram_addr_bits = 9`, `row_sel_bits = 3`, and address `0x0FFF`
selects row 7. -/
theorem c2_row_decode (p : Plan) (addr y : Nat) :
    (p.row_num = 1 → rowSel p addr y = true) ∧
    (p.row_num ≠ 1 →
      (rowSel p addr y = true ↔
        (addr / 2 ^ p.sram_addr_bits) % 2 ^ p.row_sel_bits = y)) ∧
    (mkPlan 64 4096 (some ⟨32, 512⟩)).bank_num = 2 ∧
    (mkPlan 64 4096 (some ⟨32, 512⟩)).row_num = 8 ∧
    (mkPlan 64 4096 (some ⟨32, 512⟩)).lines_per_row = 512 ∧
    (mkPlan 64 4096 (some ⟨32, 512⟩)).sram_addr_bits = 9 ∧
    (mkPlan 64 4096 (some ⟨32, 512⟩)).row_sel_bits = 3 ∧
    rowSel (mkPlan 64 4096 (some ⟨32, 512⟩)) 0x0FFF 7 = true := by
  refine ⟨?_, ?_, ?_, ?_, ?_, ?_, ?_, ?_⟩
  · intro h1
    rw [rowSel, if_pos h1]
  · intro h1
    rw [rowSel, if_neg h1, bitsField]
    exact beq_iff_eq
  all_goals decide

/-- Witness for C2 with a two-row plan: row 1 is selected exactly by
addresses whose bit 9 field equals 1. -/
theorem c2_row_decode_witness :
    (mkPlan 32 1024 (some ⟨32, 512⟩)).row_num ≠ 1 ∧
    (rowSel (mkPlan 32 1024 (some ⟨32, 512⟩)) 512 1 = true ↔
      (512 / 2 ^ (mkPlan 32 1024 (some ⟨32, 512⟩)).sram_addr_bits) %
        2 ^ (mkPlan 32 1024 (some ⟨32, 512⟩)).row_sel_bits = 1) :=
  ⟨by decide, ((c2_row_decode (mkPlan 32 1024 (some ⟨32, 512⟩)) 512 1).2.1
    (by decide))⟩

/-- C3: the expanded write mask is all ones when granularity is 0, the
strobe vector itself when granularity is 1, and for granularity > 1
strobe bit `i` is replicated over mask bits `[g*i, g*(i+1))` for the
`bits / g` full strobe bits, while the `bits % g` top remainder bits all
copy the last strobe bit; in particular for granularity 8 and bits 17
there are 2 full strobe bits and remainder mask bit 16 is driven by
strobe bit 1. -/
theorem c3_strobe_expansion (g bits strb j i : Nat) :
    (g = 0 → wr_sel_bit g bits strb j = true) ∧
    (g = 1 → wr_sel_bit g bits strb j = Nat.testBit strb j) ∧
    (1 < g → i < bits / g → g * i ≤ j → j < g * (i + 1) →
      wr_sel_bit g bits strb j = Nat.testBit strb i) ∧
    (1 < g → bits / g * g ≤ j → j < bits →
      wr_sel_bit g bits strb j = Nat.testBit strb (bits / g - 1)) ∧
    17 / 8 = 2 ∧ 17 % 8 = 1 ∧
    wr_sel_bit 8 17 strb 16 = Nat.testBit strb 1 ∧
    (∀ j2, 8 ≤ j2 → j2 < 16 → wr_sel_bit 8 17 strb j2 = Nat.testBit strb 1) ∧
    (∀ j2, j2 < 8 → wr_sel_bit 8 17 strb j2 = Nat.testBit strb 0) := by
  refine ⟨?_, ?_, ?_, ?_, by decide, by decide, ?_, ?_, ?_⟩
  · intro h0
    rw [wr_sel_bit, if_pos h0]
  · intro h1
    rw [wr_sel_bit, if_neg (by omega), if_pos h1]
  · intro hg hi hlo hhi
    have hj : j < bits / g * g := by
      have h2 : i + 1 ≤ bits / g := hi
      have h3 : g * (i + 1) ≤ g * (bits / g) := Nat.mul_le_mul_left g h2
      calc j < g * (i + 1) := hhi
      _ ≤ g * (bits / g) := h3
      _ = bits / g * g := Nat.mul_comm _ _
    have hlo2 : i * g ≤ j := by rw [Nat.mul_comm]; exact hlo
    have hhi2 : j < (i + 1) * g := by rw [Nat.mul_comm]; exact hhi
    have hdiv : j / g = i := Nat.div_eq_of_lt_le hlo2 hhi2
    rw [wr_sel_bit, if_neg (by omega), if_neg (by omega), if_pos hj, hdiv]
  · intro hg hlo hhi
    rw [wr_sel_bit, if_neg (by omega), if_neg (by omega), if_neg (by omega)]
  · rw [wr_sel_bit]
    norm_num
  · intro j2 h1 h2
    rw [wr_sel_bit]
    have hj : j2 < 17 / 8 * 8 := by omega
    rw [if_neg (by omega), if_neg (by omega), if_pos hj]
    have : j2 / 8 = 1 := Nat.div_eq_of_lt_le (by omega) (by omega)
    rw [this]
  · intro j2 h1
    rw [wr_sel_bit]
    have hj : j2 < 17 / 8 * 8 := by omega
    rw [if_neg (by omega), if_neg (by omega), if_pos hj]
    have : j2 / 8 = 0 := Nat.div_eq_of_lt (by omega)
    rw [this]

/-- Witness for C3 at granularity 8, bits 17, strobe 0b10. -/
theorem c3_strobe_expansion_witness :
    (1 < 8 → 16 ≥ 17 / 8 * 8 → 16 < 17 →
      wr_sel_bit 8 17 2 16 = Nat.testBit 2 (17 / 8 - 1)) ∧
    wr_sel_bit 8 17 2 16 = Nat.testBit 2 1 :=
  ⟨fun _ _ _ => ((c3_strobe_expansion 8 17 2 16 0).2.2.2.1 (by decide)
      (by decide) (by decide)),
   (c3_strobe_expansion 8 17 2 16 0).2.2.2.2.2.2.1⟩

/-- C4: an active flip-flop-array write with select mask `sel` at `addr`
replaces exactly the bits of word `addr` where `sel` is 1 (the word
becomes `(sel & data) | (~sel & old)`), keeps the bits where `sel` is 0,
and keeps every other word; consequently a full-mask write of `data`
followed by a read of the same in-range address returns `data`. -/
theorem c4_ff_masked_write (bits line_num : Nat) (mem : Nat → Nat)
    (addr data sel a i : Nat) :
    (a ≠ addr → ff_write bits mem true addr data sel a = mem a) ∧
    (ff_write bits mem false addr data sel a = mem a) ∧
    (i < bits →
      Nat.testBit (ff_write bits mem true addr data sel addr) i =
        if Nat.testBit sel i then Nat.testBit data i
        else Nat.testBit (mem addr) i) ∧
    (addr < line_num → data < 2 ^ bits →
      ff_read (ff_write bits mem true addr data (2 ^ bits - 1)) addr = data) := by
  refine ⟨?_, ?_, ?_, ?_⟩
  · intro hne
    rw [ff_write]
    have : (a == addr) = false := beq_eq_false_iff_ne.mpr hne
    rw [this]
    simp
  · rw [ff_write]
    simp
  · intro hi
    rw [ff_write]
    simp only [beq_self_eq_true, Bool.and_self, if_pos]
    rw [Nat.testBit_lor, Nat.testBit_land, Nat.testBit_land, Nat.testBit_xor,
      Nat.testBit_two_pow_sub_one]
    have hd : decide (i < bits) = true := decide_eq_true hi
    rw [hd]
    cases hsel : Nat.testBit sel i <;> simp
  · intro _ hdata
    rw [ff_read, ff_write]
    simp only [beq_self_eq_true, Bool.and_self, if_pos]
    rw [Nat.xor_self, Nat.zero_and, Nat.or_zero, Nat.land_comm,
      Nat.and_pow_two_sub_one_eq_mod, Nat.mod_eq_of_lt hdata]

/-- Witness for C4: in a 17-bit, 64-line array (the testbench fallback
configuration), writing 0x1ABCD with the full mask at address 63 and
reading it back returns 0x1ABCD, and bit 3 of the word follows the mask. -/
theorem c4_ff_masked_write_witness :
    (5 ≠ 63 → ff_write 17 (fun _ => 0) true 63 0x1ABCD 0x1FFFF 5 = 0) ∧
    (3 < 17 →
      Nat.testBit (ff_write 17 (fun _ => 0) true 63 0x1ABCD 0x1FFFF 63) 3 =
        if Nat.testBit 0x1FFFF 3 then Nat.testBit 0x1ABCD 3
        else Nat.testBit ((fun _ => (0:Nat)) 63) 3) ∧
    (63 < 64 → 0x1ABCD < 2 ^ 17 →
      ff_read (ff_write 17 (fun _ => 0) true 63 0x1ABCD (2 ^ 17 - 1)) 63 =
        0x1ABCD) :=
  ⟨fun h => (c4_ff_masked_write 17 64 (fun _ => 0) 63 0x1ABCD 0x1FFFF 5 3).1 h,
   fun h => (c4_ff_masked_write 17 64 (fun _ => 0) 63 0x1ABCD 0x1FFFF 63 3).2.2.1 h,
   fun h1 h2 =>
     (c4_ff_masked_write 17 64 (fun _ => 0) 63 0x1ABCD (2 ^ 17 - 1) 63 3).2.2.2 h1 h2⟩

theorem filter_range_beq (q v : Nat) :
    (List.range q).filter (fun y => v == y) = if v < q then [v] else [] := by
  induction q with
  | zero => simp
  | succ n ih =>
    rw [List.range_succ, List.filter_append, ih]
    by_cases h : v < n
    · have hne : (v == n) = false := beq_eq_false_iff_ne.mpr (by omega)
      rw [if_pos h, if_pos (by omega)]
      simp [List.filter, hne]
    · by_cases h2 : v = n
      · subst h2
        rw [if_neg h, if_pos (by omega)]
        simp [List.filter]
      · rw [if_neg h, if_neg (by omega)]
        have hne : (v == n) = false := beq_eq_false_iff_ne.mpr (by omega)
        simp [List.filter, hne]

/-- C5 counterexample: for bits=32, line_num=513 on the 32x512 macro the
rounded depth is 1024, so the generated task's range check `addr >= 1024`
does not halt at address 513 even though 513 >= line_num = 513; the task
dispatches to row 1 instead of failing. -/
theorem c5_bound_counterexample :
    513 ≤ 513 ∧ sim_task (mkPlan 32 513 (some ⟨32, 512⟩)) 513 ≠ none ∧
    sim_task (mkPlan 32 513 (some ⟨32, 512⟩)) 513 = some [1] := by decide

/-- C5 (amended): the generated simulation tasks fatally halt exactly for
addresses `addr >= lines_roundup` (the plan's rounded-up depth, which is
the bound the emitted check uses), and every non-halting address is
dispatched to exactly the row selected by the synthesizable row decode
field; the dispatch guard degenerates to an unconditional call of row 0
when `row_num == 1`. -/
theorem c5_sim_range_and_dispatch (bits line_num k : Nat) (s : SramGeom)
    (p : Plan) (hp : p = mkPlan bits line_num (some s))
    (hl : 0 < line_num) (hs : s.line_num = 2 ^ k) (addr : Nat) :
    (sim_task p addr = none ↔ p.line_num_roundup ≤ addr) ∧
    (addr < p.line_num_roundup →
      sim_task p addr =
        some [(addr / 2 ^ p.sram_addr_bits) % 2 ^ p.row_sel_bits] ∧
      rowSel p addr
        ((addr / 2 ^ p.sram_addr_bits) % 2 ^ p.row_sel_bits) = true) ∧
    (p.row_num = 1 → addr < p.line_num_roundup → sim_task p addr = some [0]) := by
  obtain ⟨hlpr, hrab, hsab, hlnr, hrpos⟩ :=
    mkPlan_pow2_bits line_num k bits s hl hs
  rw [← hp] at hlpr hrab hsab hlnr hrpos
  have hrsb : p.row_sel_bits = log2 p.row_num := by
    rw [hp, mkPlan_some_eq]
  constructor
  · rw [sim_task]
    by_cases h : p.line_num_roundup ≤ addr
    · rw [if_pos h]
      simp [h]
    · rw [if_neg h]
      simp [h]
  constructor
  · intro hin
    have hin2 : addr < p.row_num * 2 ^ k := by rw [← hlnr]; exact hin
    obtain ⟨hmod, hlt⟩ := field_eq_div addr k p.row_num hin2
    rw [sim_task, if_neg (by omega)]
    by_cases h1 : p.row_num = 1
    · have hy : (addr / 2 ^ p.sram_addr_bits) % 2 ^ p.row_sel_bits = 0 := by
        rw [hrsb, h1]
        simp [log2, clog2Aux, Nat.mod_one]
      rw [hy]
      constructor
      · rw [h1]
        simp [List.range_succ]
      · rw [rowSel, if_pos h1]
    · have hfield : bitsField addr p.row_addr_bits p.row_sel_bits =
          addr / 2 ^ k := by
        rw [bitsField, hrab, hrsb, hmod]
      have hval : (addr / 2 ^ p.sram_addr_bits) % 2 ^ p.row_sel_bits =
          addr / 2 ^ k := by
        rw [hsab, hrsb, hmod]
      rw [hval]
      constructor
      · simp only [if_neg h1, hfield]
        rw [filter_range_beq, if_pos hlt]
      · rw [rowSel, if_neg h1, bitsField, hsab, hrsb, hmod]
        exact beq_self_eq_true _
  · intro h1 hin
    rw [sim_task, if_neg (by omega), h1]
    simp [List.range_succ]

/-- Witness for C5 (amended) at bits=64, line_num=4096 on the 32x512
macro: address 4096 halts, address 0x0FFF dispatches to row 7. -/
theorem c5_sim_range_and_dispatch_witness :
    (sim_task (mkPlan 64 4096 (some ⟨32, 512⟩)) 4096 = none ↔
      (mkPlan 64 4096 (some ⟨32, 512⟩)).line_num_roundup ≤ 4096) ∧
    (0x0FFF < (mkPlan 64 4096 (some ⟨32, 512⟩)).line_num_roundup →
      sim_task (mkPlan 64 4096 (some ⟨32, 512⟩)) 0x0FFF =
        some [(0x0FFF / 2 ^ (mkPlan 64 4096 (some ⟨32, 512⟩)).sram_addr_bits) %
          2 ^ (mkPlan 64 4096 (some ⟨32, 512⟩)).row_sel_bits] ∧
      rowSel (mkPlan 64 4096 (some ⟨32, 512⟩)) 0x0FFF
        ((0x0FFF / 2 ^ (mkPlan 64 4096 (some ⟨32, 512⟩)).sram_addr_bits) %
          2 ^ (mkPlan 64 4096 (some ⟨32, 512⟩)).row_sel_bits) = true) :=
  ⟨(c5_sim_range_and_dispatch 64 4096 9 ⟨32, 512⟩ _ rfl (by decide) (by decide)
      4096).1,
   (c5_sim_range_and_dispatch 64 4096 9 ⟨32, 512⟩ _ rfl (by decide) (by decide)
      0x0FFF).2.1⟩

/-- C8: within one row, the write issued to bank `x` is the row's write
request AND-ed with "that bank's `bits_per_bank`-wide slice of the
write-select mask is nonzero", and the read issued to bank `x` is the
row's read request unchanged: with `rd_en` disabled (as `g_mem` always
instantiates it) the bank read-select vector is tied to all ones, so the
read-side gating never masks a read. -/
theorem c8_bank_gating (wr rd : Bool) (v bpb x rdv : Nat) :
    (wr_bank wr v bpb x = (wr && !(wr_bank_sel v bpb x == 0))) ∧
    (wr_bank wr v bpb x = true ↔ wr = true ∧ wr_bank_sel v bpb x ≠ 0) ∧
    (bank_rd_sel_bit false rdv x = true) ∧
    (rd_bank rd false rdv x = rd) := by
  have hsel : bank_wr_sel_bit v bpb x = !(wr_bank_sel v bpb x == 0) := by
    rw [bank_wr_sel_bit]
    by_cases h : wr_bank_sel v bpb x = 0
    · rw [h]
      simp
    · have h2 : (wr_bank_sel v bpb x == 0) = false := beq_eq_false_iff_ne.mpr h
      rw [h2]
      simp
      omega
  refine ⟨?_, ?_, ?_, ?_⟩
  · rw [wr_bank, hsel]
  · rw [wr_bank, hsel]
    cases wr <;> by_cases h : wr_bank_sel v bpb x = 0 <;>
      simp [h, beq_eq_false_iff_ne.mpr]
  · rw [bank_rd_sel_bit]
    simp
  · rw [rd_bank, bank_rd_sel_bit]
    simp

/-- Witness for C8 at a concrete slice: mask 0x00FF0000 with 8-bit banks
issues a write only where the slice is nonzero. -/
theorem c8_bank_gating_witness :
    wr_bank true 0x00FF0000 8 2 = (true && !(wr_bank_sel 0x00FF0000 8 2 == 0)) ∧
    (wr_bank true 0x00FF0000 8 2 = true ↔
      true = true ∧ wr_bank_sel 0x00FF0000 8 2 ≠ 0) :=
  ⟨(c8_bank_gating true true 0x00FF0000 8 2 0).1,
   (c8_bank_gating true true 0x00FF0000 8 2 0).2.1⟩

/-- C10: with granularity >= 1, an all-zero strobe expands to an all-zero
full-width mask; a top-level write request carrying it issues no write to
any bank (so no stored word changes), and in the row the address selects
the fatal "write detected without any bank selected" assertion fires —
the all-zero user strobe is indistinguishable from an internal decode
fault. -/
theorem c10_zero_strobe (bit_sel bits : Nat) (hg : 1 ≤ bit_sel) (p : Plan)
    (addr y : Nat) (hsel : rowSel p addr y = true) (bpb bn : Nat)
    (mem : Nat → Nat) (a d x a2 : Nat) :
    wr_sel_val bit_sel bits 0 = 0 ∧
    wr_row p true addr y = true ∧
    wr_bank (wr_row p true addr y) 0 bpb x = false ∧
    no_bank_wr_sel_assert (wr_row p true addr y) 0 bpb bn = true ∧
    ff_write bpb mem (wr_bank (wr_row p true addr y) 0 bpb x) a d
      (wr_bank_sel 0 bpb x) a2 = mem a2 := by
  have hrow : wr_row p true addr y = true := by
    rw [wr_row, hsel]
    rfl
  have hslice : ∀ x2, wr_bank_sel 0 bpb x2 = 0 := by
    intro x2
    rw [wr_bank_sel, bitsField]
    simp [Nat.zero_div, Nat.zero_mod]
  have hbit : ∀ x2, bank_wr_sel_bit 0 bpb x2 = false := by
    intro x2
    rw [bank_wr_sel_bit, hslice x2]
    simp
  have hbank : wr_bank (wr_row p true addr y) 0 bpb x = false := by
    rw [wr_bank, hbit x]
    simp
  refine ⟨?_, hrow, hbank, ?_, ?_⟩
  · rw [wr_sel_val]
    rw [packBits_eq_zero_iff]
    intro i _
    rw [wr_sel_bit]
    rcases Nat.lt_or_ge 1 bit_sel with h2 | h2
    · rw [if_neg (by omega), if_neg (by omega)]
      by_cases h3 : i < bits / bit_sel * bit_sel
      · rw [if_pos h3, Nat.zero_testBit]
      · rw [if_neg h3, Nat.zero_testBit]
    · have h3 : bit_sel = 1 := by omega
      rw [if_neg (by omega), if_pos h3, Nat.zero_testBit]
  · rw [no_bank_wr_sel_assert, hrow, bank_wr_sel_vec]
    have hvec : packBits bn (fun x2 => bank_wr_sel_bit 0 bpb x2) = 0 :=
      (packBits_eq_zero_iff bn _).mpr fun i _ => hbit i
    rw [hvec]
    rfl
  · rw [hbank, ff_write]
    simp

/-- Witness for C10: granularity 8 on a 17-bit word, any plan row with its
select high, 8-bit banks. -/
theorem c10_zero_strobe_witness :
    wr_sel_val 8 17 0 = 0 ∧
    wr_row (mkPlan 17 64 none) true 0 0 = true ∧
    wr_bank (wr_row (mkPlan 17 64 none) true 0 0) 0 8 0 = false ∧
    no_bank_wr_sel_assert (wr_row (mkPlan 17 64 none) true 0 0) 0 8 3 = true ∧
    ff_write 8 (fun _ => 5) (wr_bank (wr_row (mkPlan 17 64 none) true 0 0) 0 8 0)
      0 255 (wr_bank_sel 0 8 0) 0 = (fun _ => (5:Nat)) 0 :=
  c10_zero_strobe 8 17 (by decide) (mkPlan 17 64 none) 0 0 (by decide) 8 3
    (fun _ => 5) 0 255 0 0

theorem wr_bank_sel_testBit (v bpb x j : Nat) (hj : j < bpb) :
    (wr_bank_sel v bpb x).testBit j = v.testBit (bpb * x + j) := by
  rw [wr_bank_sel, bitsField, Nat.testBit_mod_two_pow, decide_eq_true hj,
    Bool.true_and, ← Nat.shiftRight_eq_div_pow, Nat.testBit_shiftRight]

theorem bank_vec_nonzero (v bpb bn : Nat) (hv : v ≠ 0)
    (hlt : v < 2 ^ (bpb * bn)) : bank_wr_sel_vec v bpb bn ≠ 0 := by
  obtain ⟨i, hi, _⟩ := Nat.exists_most_significant_bit hv
  have hbpb : 0 < bpb := by
    rcases Nat.eq_zero_or_pos bpb with h | h
    · rw [h] at hlt
      simp at hlt
      omega
    · exact h
  have hib : i < bpb * bn := by
    by_contra hc
    push_neg at hc
    have h2 : (2:Nat) ^ (bpb * bn) ≤ 2 ^ i := Nat.pow_le_pow_right (by omega) hc
    have h3 : v < 2 ^ i := by omega
    rw [Nat.testBit_lt_two_pow h3] at hi
    exact Bool.false_ne_true hi
  have hx : i / bpb < bn := (Nat.div_lt_iff_lt_mul hbpb).mpr
    (by rw [Nat.mul_comm]; exact hib)
  have hj : i % bpb < bpb := Nat.mod_lt _ hbpb
  have hslice : (wr_bank_sel v bpb (i / bpb)).testBit (i % bpb) = true := by
    rw [wr_bank_sel_testBit v bpb _ _ hj, Nat.div_add_mod i bpb]
    exact hi
  have hbit : bank_wr_sel_bit v bpb (i / bpb) = true := by
    rw [bank_wr_sel_bit]
    have : wr_bank_sel v bpb (i / bpb) ≠ 0 := by
      intro h0
      rw [h0, Nat.zero_testBit] at hslice
      exact Bool.false_ne_true hslice
    simp
    omega
  intro h0
  have := (packBits_eq_zero_iff bn _).mp h0 (i / bpb) hx
  rw [hbit] at this
  simp at this

/-- C9: the generated runtime "never" assertions fire exactly when an
active write/read observes an all-zero row-select vector (top level) or
an all-zero bank-select vector (row level); for every in-range external
address the decode selects exactly one row, and with a nonzero write mask
(or, on the read side, the all-ones tied read-bank vector) at least one
bank path, so no assertion fires for in-range accesses. -/
theorem c9_decode_never_fires :
    (∀ (p : Plan) (active : Bool) (addr : Nat),
      no_row_sel_assert p active addr = true ↔
        active = true ∧ row_sel_vec p addr = 0) ∧
    (∀ (wr : Bool) (v bpb bn : Nat),
      no_bank_wr_sel_assert wr v bpb bn = true ↔
        wr = true ∧ bank_wr_sel_vec v bpb bn = 0) ∧
    (∀ (rd ren : Bool) (v bn : Nat),
      no_bank_rd_sel_assert rd ren v bn = true ↔
        rd = true ∧ bank_rd_sel_vec ren v bn = 0) ∧
    (∀ (bits line_num k : Nat) (s : SramGeom) (p : Plan),
      p = mkPlan bits line_num (some s) → 0 < line_num →
      s.line_num = 2 ^ k → ∀ addr < line_num,
      (∃! y, y < p.row_num ∧ rowSel p addr y = true) ∧
      row_sel_vec p addr ≠ 0 ∧
      (∀ active : Bool, no_row_sel_assert p active addr = false)) ∧
    (∀ (v bpb bn : Nat), v ≠ 0 → v < 2 ^ (bpb * bn) →
      bank_wr_sel_vec v bpb bn ≠ 0 ∧
      (∀ wr : Bool, no_bank_wr_sel_assert wr v bpb bn = false)) ∧
    (∀ (v bn : Nat), 0 < bn →
      bank_rd_sel_vec false v bn ≠ 0 ∧
      (∀ rd : Bool, no_bank_rd_sel_assert rd false v bn = false)) := by
  have hbeq : ∀ n : Nat, (n == 0) = true ↔ n = 0 := fun n => beq_iff_eq
  have hbne : ∀ n : Nat, n ≠ 0 → (n == 0) = false := fun n h =>
    beq_eq_false_iff_ne.mpr h
  refine ⟨?_, ?_, ?_, ?_, ?_, ?_⟩
  · intro p active addr
    rw [no_row_sel_assert]
    cases active <;> simp
  · intro wr v bpb bn
    rw [no_bank_wr_sel_assert]
    cases wr <;> simp
  · intro rd ren v bn
    rw [no_bank_rd_sel_assert]
    cases rd <;> simp
  · intro bits line_num k s p hp hl hs addr hin
    obtain ⟨hlpr, hrab, hsab, hlnr, hrpos⟩ :=
      mkPlan_pow2_bits line_num k bits s hl hs
    rw [← hp] at hlpr hrab hsab hlnr hrpos
    have hrsb : p.row_sel_bits = log2 p.row_num := by
      rw [hp, mkPlan_some_eq]
    have hin2 : addr < p.row_num * 2 ^ k := by
      calc addr < line_num := hin
      _ ≤ roundup line_num s.line_num := le_roundup _ _ (by
          rw [hs]; exact Nat.pos_pow_of_pos k (by omega))
      _ = p.line_num_roundup := by rw [hp, mkPlan_some_eq]
      _ = p.row_num * 2 ^ k := hlnr
    obtain ⟨hmod, hlt⟩ := field_eq_div addr k p.row_num hin2
    have hone : ∃! y, y < p.row_num ∧ rowSel p addr y = true := by
      by_cases h1 : p.row_num = 1
      · refine ⟨0, ⟨by omega, by rw [rowSel, if_pos h1]⟩, ?_⟩
        intro y2 hy2
        omega
      · refine ⟨addr / 2 ^ k, ⟨hlt, ?_⟩, ?_⟩
        · rw [rowSel, if_neg h1, bitsField, hsab, hrsb, hmod]
          exact beq_self_eq_true _
        · intro y2 hy2
          obtain ⟨_, hy2sel⟩ := hy2
          rw [rowSel, if_neg h1, bitsField, hsab, hrsb, hmod] at hy2sel
          exact (beq_iff_eq.mp hy2sel).symm
    obtain ⟨y0, hy0lt, hy0sel⟩ := hone.exists
    have hvec : row_sel_vec p addr ≠ 0 := by
      intro h0
      have := (packBits_eq_zero_iff p.row_num _).mp h0 y0 hy0lt
      rw [hy0sel] at this
      simp at this
    refine ⟨hone, hvec, ?_⟩
    intro active
    rw [no_row_sel_assert, hbne _ hvec]
    simp
  · intro v bpb bn hv hlt
    have hvec := bank_vec_nonzero v bpb bn hv hlt
    refine ⟨hvec, ?_⟩
    intro wr
    rw [no_bank_wr_sel_assert, hbne _ hvec]
    simp
  · intro v bn hbn
    have hvec : bank_rd_sel_vec false v bn ≠ 0 := by
      intro h0
      have := (packBits_eq_zero_iff bn _).mp h0 0 hbn
      rw [bank_rd_sel_bit] at this
      simp at this
    refine ⟨hvec, ?_⟩
    intro rd
    rw [no_bank_rd_sel_assert, hbne _ hvec]
    simp

/-- Witness for C9 at the testbench plan (bits=64, line_num=4096, macro
32x512) and address 0x0FFF with write mask 1 in 32-bit banks. -/
theorem c9_decode_never_fires_witness :
    ((∃! y, y < (mkPlan 64 4096 (some ⟨32, 512⟩)).row_num ∧
      rowSel (mkPlan 64 4096 (some ⟨32, 512⟩)) 0x0FFF y = true) ∧
     row_sel_vec (mkPlan 64 4096 (some ⟨32, 512⟩)) 0x0FFF ≠ 0 ∧
     (∀ active : Bool,
       no_row_sel_assert (mkPlan 64 4096 (some ⟨32, 512⟩)) active 0x0FFF =
         false)) ∧
    (bank_wr_sel_vec 1 32 2 ≠ 0 ∧
     (∀ wr : Bool, no_bank_wr_sel_assert wr 1 32 2 = false)) ∧
    (bank_rd_sel_vec false 0 2 ≠ 0 ∧
     (∀ rd : Bool, no_bank_rd_sel_assert rd false 0 2 = false)) :=
  ⟨c9_decode_never_fires.2.2.2.1 64 4096 9 ⟨32, 512⟩ _ rfl (by decide)
      (by decide) 0x0FFF (by decide),
   c9_decode_never_fires.2.2.2.2.1 1 32 2 (by decide) (by decide),
   c9_decode_never_fires.2.2.2.2.2 0 2 (by decide)⟩

/-- A convention-A pinout (detected through `din0`/`addr0`) whose port 0
has a data-in pin but neither a chip-select nor a write-enable pin. -/
def signalsNoEnable : Signals :=
  [⟨PinName.din0, 32⟩, ⟨PinName.addr0, 9⟩, ⟨PinName.clk0, 1⟩,
   ⟨PinName.dout0, 32⟩]

/-- The full convention-A pinout of the testbench macro
`sram_1rw1r0w_32_512_scn4m_subm`: port 0 read/write with write mask,
port 1 read-only with its own clock. -/
def signalsScn4m : Signals :=
  [⟨PinName.clk0, 1⟩, ⟨PinName.csb0, 1⟩, ⟨PinName.web0, 1⟩,
   ⟨PinName.wmask0, 4⟩, ⟨PinName.addr0, 9⟩, ⟨PinName.din0, 32⟩,
   ⟨PinName.dout0, 32⟩, ⟨PinName.clk1, 1⟩, ⟨PinName.csb1, 1⟩,
   ⟨PinName.addr1, 9⟩, ⟨PinName.dout1, 32⟩]

/-- C6 counterexample: on a recognised convention-A pinout whose port 0
has a data-in pin but neither chip-select nor write-enable,
`get_port_type` returns "" while the claim's chain ("w" whenever a
data-in pin is present) returns "w". -/
theorem c6_capability_counterexample :
    detect signalsNoEnable = some Conv.openram ∧
    get_port_type_claim Conv.openram signalsNoEnable 0 = PortCap.w ∧
    get_port_type Conv.openram signalsNoEnable 0 = PortCap.absent ∧
    get_port_type Conv.openram signalsNoEnable 0 ≠
      get_port_type_claim Conv.openram signalsNoEnable 0 := by decide

/-- C6 (amended): capability is "w/r" when both the chip-select and
write-enable roles map to real pins; else, when at least one of the two
maps, "w" if a data-in pin is present and "r" otherwise; "" when neither
maps.  Geometry: width = data-in pin width, depth = 2^(address pin
width), dual_clock iff the port-1 clock role maps to a real pin,
granularity = width / write-mask pin width or 0 with no write-mask pin;
convention A is detected by the presence of pins `din0` and `addr0`. -/
theorem c6_binder_derivation (c : Conv) (s : Signals) (n : Nat) :
    (checkPort c s Role.csb n = true → checkPort c s Role.web n = true →
      get_port_type c s n = PortCap.rw) ∧
    ((checkPort c s Role.csb n = true ∨ checkPort c s Role.web n = true) →
      ¬(checkPort c s Role.csb n = true ∧ checkPort c s Role.web n = true) →
      get_port_type c s n =
        (if checkPort c s Role.din n then PortCap.w else PortCap.r)) ∧
    (checkPort c s Role.csb n = false → checkPort c s Role.web n = false →
      get_port_type c s n = PortCap.absent) ∧
    (get_params c s).bits = roleBits c s Role.din 0 ∧
    (get_params c s).line_num = 2 ^ roleBits c s Role.addr 0 ∧
    (get_params c s).dual_clk = checkPort c s Role.clk 1 ∧
    (checkPort c s Role.wsel 0 = true →
      (get_params c s).bit_sel =
        roleBits c s Role.din 0 / roleBits c s Role.wsel 0) ∧
    (checkPort c s Role.wsel 0 = false → (get_params c s).bit_sel = 0) ∧
    (hasPin s PinName.din0 = true → hasPin s PinName.addr0 = true →
      detect s = some Conv.openram) := by
  refine ⟨?_, ?_, ?_, rfl, rfl, rfl, ?_, ?_, ?_⟩
  · intro h1 h2
    rw [get_port_type, h1, h2]
    simp
  · intro h1 h2
    have hand : (checkPort c s Role.csb n && checkPort c s Role.web n) = false := by
      rcases Bool.eq_false_or_eq_true (checkPort c s Role.csb n) with h3 | h3 <;>
        rcases Bool.eq_false_or_eq_true (checkPort c s Role.web n) with h4 | h4 <;>
        simp [h3, h4] at h1 h2 ⊢
    have hor : (checkPort c s Role.csb n || checkPort c s Role.web n) = true := by
      rcases h1 with h3 | h3 <;> simp [h3]
    rw [get_port_type, hand, hor]
    simp
  · intro h1 h2
    rw [get_port_type, h1, h2]
    simp
  · intro h1
    rw [get_params]
    simp [h1]
  · intro h1
    rw [get_params]
    simp [h1]
  · intro h1 h2
    rw [detect, if_pos]
    rw [h1, h2]
    rfl

/-- Witness for C6 (amended) at the testbench macro pinout: port 0 is
"w/r", port 1 is "r", width 32, depth 512, dual clock, granularity 8. -/
theorem c6_binder_derivation_witness :
    get_port_type Conv.openram signalsScn4m 0 = PortCap.rw ∧
    (get_port_type Conv.openram signalsScn4m 1 =
      if checkPort Conv.openram signalsScn4m Role.din 1 then PortCap.w
      else PortCap.r) ∧
    (get_params Conv.openram signalsScn4m).bit_sel =
      roleBits Conv.openram signalsScn4m Role.din 0 /
        roleBits Conv.openram signalsScn4m Role.wsel 0 ∧
    detect signalsScn4m = some Conv.openram :=
  ⟨(c6_binder_derivation Conv.openram signalsScn4m 0).1 (by decide) (by decide),
   (c6_binder_derivation Conv.openram signalsScn4m 1).2.1
     (Or.inl (by decide)) (by decide),
   (c6_binder_derivation Conv.openram signalsScn4m 0).2.2.2.2.2.2.1 (by decide),
   (c6_binder_derivation Conv.openram signalsScn4m 0).2.2.2.2.2.2.2.2
     (by decide) (by decide)⟩

/-- C7 counterexample: on the recognised openram convention the
write-mask pin is driven with the strobe directly (`wmask0 = wsel0`), not
with its active-low inversion — for an 8-granule all-zero strobe the pin
gets 0x00 while the polarity-inverted value is 0xFF; and on the split
tsmc convention the write-enable pin is driven with `wr` itself, which is
high (not low) during a write. -/
theorem c7_polarity_counterexample :
    wsel_conn Conv.openram 0 8 0 = some 0 ∧
    (2 ^ 8 - 1) ^^^ 0 = 255 ∧
    some (0 : Nat) ≠ some (255 : Nat) ∧
    web_conn Conv.tsmcSplit 0 true false = some true := by decide

/-- C7 (amended): the binder drives the chip-select pins active-low
(`~(wr|rd)`) on openram and combined-tsmc ports; the write-enable-role
pin is driven with the read request (hence low during a pure write) on
openram and combined-tsmc ports, but with the write request itself
(active-high) on the split-tsmc write port; the write-mask pin is driven
with the polarity-inverted strobe only on the combined-tsmc port —
openram and split-tsmc ports receive the expanded strobe uninverted. -/
theorem c7_conn_polarity (wr rd : Bool) (wb wsel i : Nat) :
    web_conn Conv.openram 0 wr rd = some rd ∧
    web_conn Conv.openram 1 wr rd = some rd ∧
    web_conn Conv.tsmcCombined 0 wr rd = some rd ∧
    web_conn Conv.tsmcSplit 0 wr rd = some wr ∧
    web_conn Conv.tsmcSplit 1 wr rd = some rd ∧
    csb_conn Conv.openram 0 wr rd = some (!(wr || rd)) ∧
    csb_conn Conv.tsmcCombined 0 wr rd = some (!(wr || rd)) ∧
    wsel_conn Conv.openram 0 wb wsel = some wsel ∧
    wsel_conn Conv.tsmcSplit 0 wb wsel = some wsel ∧
    wsel_conn Conv.tsmcCombined 0 wb wsel = some ((2 ^ wb - 1) ^^^ wsel) ∧
    (i < wb → ((2 ^ wb - 1) ^^^ wsel).testBit i = !(wsel.testBit i)) := by
  refine ⟨rfl, rfl, rfl, rfl, rfl, rfl, rfl, rfl, rfl, rfl, ?_⟩
  intro hi
  rw [Nat.testBit_xor, Nat.testBit_two_pow_sub_one, decide_eq_true hi]
  cases wsel.testBit i <;> rfl

/-- Witness for C7 (amended): the combined-tsmc mask drive inverts every
strobe bit of an 8-bit granule vector. -/
theorem c7_conn_polarity_witness :
    wsel_conn Conv.tsmcCombined 0 8 0b1010 = some ((2 ^ 8 - 1) ^^^ 0b1010) ∧
    (3 < 8 → ((2 ^ 8 - 1) ^^^ 0b1010).testBit 3 = !(Nat.testBit 0b1010 3)) :=
  ⟨(c7_conn_polarity true false 8 0b1010 3).2.2.2.2.2.2.2.2.2.1,
   fun h => (c7_conn_polarity true false 8 0b1010 3).2.2.2.2.2.2.2.2.2.2 h⟩

end P2VMem
